import Mathlib

/-!
# Verification of the incremental merge/reshape preprocessor

Shallow embedding of `src/preprocessor.py` (class `DataProcessor`):

* `parseDate` models `datetime.strptime(s, '%Y-%m-%d').date()` (line 95 of the
  source): exactly four year digits, one or two month digits (1..12), one or
  two day digits valid for the month (Gregorian leap rule), the three fields
  separated by `-`, nothing left over.  A failing parse models the raised
  `ValueError`.
* `WideTable` models the raw CSV snapshot: identifier columns
  `Client`, `Warehouse`, `Product` plus one value list per row, aligned with
  the non-identifier (date-named) column list `dateCols`.  Identifier cells
  are modelled as present strings; observation values are `Option Int`
  (`none` = null cell).
* `LongRow` models one record of the persisted long table
  (`ds`, `y`, `unique_id`, `Client`, `Warehouse`, `Product`).
* `prepareRawCsv` models `prepare_raw_csv` (lines 43-67): build
  `unique_id = Client ++ "/" ++ Warehouse ++ "/" ++ Product`, unpivot
  column-major (one long row per date column per input row, as polars
  `unpivot` stacks the value columns), parse the `ds` strings as dates, sort
  by `(unique_id, ds)`.
* `mergeNewData` models `merge_new_data_with_preprocessed_data`
  (lines 69-122): parse the snapshot's non-identifier column names
  (a failure means `schemaError`, no write), compute the non-overlapping dates against
  the distinct `ds` values of the old table, short-circuit when none are new,
  otherwise reshape, filter to the new dates, concatenate, re-sort.
* `processFiles` models `process_files` (lines 26-41): the loop calls the
  merge for each candidate file with no exception handling, so a raised
  error propagates and the remaining files are never attempted; the `Bool`
  records whether the batch was aborted by such an error.
-/

/-- A calendar date as parsed from a `YYYY-MM-DD` column name.  Ordering
fields lexicographically by `(y, m, d)` is chronological order. -/
structure PDate where
  y : Nat
  m : Nat
  d : Nat
deriving DecidableEq, Repr

/-- Digit test, as used by the date parser's digit matching. -/
def isDigit (c : Char) : Bool :=
  '0' ≤ c && c ≤ '9'

/-- Numeric value of a digit string (most significant first). -/
def natOfDigits (cs : List Char) : Nat :=
  cs.foldl (fun acc c => acc * 10 + (c.toNat - '0'.toNat)) 0

/-- Gregorian leap-year rule, as validated by `datetime.date`. -/
def isLeapYear (y : Nat) : Bool :=
  (y % 4 == 0 && y % 100 != 0) || y % 400 == 0

/-- Number of days of month `m` in year `y` (`datetime.date` validation). -/
def daysInMonth (y m : Nat) : Nat :=
  if m == 2 then (if isLeapYear y then 29 else 28)
  else if m == 4 || m == 6 || m == 9 || m == 11 then 30
  else 31

/-- Split a character list at every `'-'` (the semantics of splitting a
string on the separator `"-"`). -/
def splitOnDash : List Char → List (List Char)
  | [] => [[]]
  | c :: rest =>
    if c = '-' then [] :: splitOnDash rest
    else
      match splitOnDash rest with
      | [] => [[c]]
      | h :: t => (c :: h) :: t

/-- Model of `dt.datetime.strptime(s, '%Y-%m-%d').date()` (source line 95):
`some` date on success, `none` models the raised `ValueError`. -/
def parseDate (s : String) : Option PDate :=
  match splitOnDash s.toList with
  | [yc, mc, dc] =>
    if yc.length == 4 && yc.all isDigit
        && (1 ≤ mc.length && mc.length ≤ 2) && mc.all isDigit
        && (1 ≤ dc.length && dc.length ≤ 2) && dc.all isDigit then
      let y := natOfDigits yc
      let m := natOfDigits mc
      let d := natOfDigits dc
      if 1 ≤ m && m ≤ 12 && 1 ≤ d && d ≤ daysInMonth y m then
        some ⟨y, m, d⟩
      else none
    else none
  | _ => none

/-- One data row of a wide snapshot CSV: the three identifier cells and the
observation cells, positionally aligned with the table's date columns. -/
structure WideRow where
  Client : String
  Warehouse : String
  Product : String
  values : List (Option Int)
deriving DecidableEq, Repr

/-- A wide snapshot table: the non-identifier column names (in file order)
and the data rows.  The identifier columns `Client`, `Warehouse`, `Product`
are implicit (every snapshot has them). -/
structure WideTable where
  dateCols : List String
  rows : List WideRow
deriving DecidableEq, Repr

/-- One record of the persisted long table. -/
structure LongRow where
  ds : PDate
  y : Option Int
  unique_id : String
  Client : String
  Warehouse : String
  Product : String
deriving DecidableEq, Repr

/-- The derived composite entity key, modelling
`pl.concat_str([Client, '/', Warehouse, '/', Product])` (source line 60). -/
def entityKey (r : WideRow) : String :=
  r.Client ++ "/" ++ r.Warehouse ++ "/" ++ r.Product

/-- Chronological order on parsed dates (lexicographic on `(y, m, d)`). -/
def PDate.le (a b : PDate) : Prop :=
  a.y < b.y ∨ (a.y = b.y ∧ (a.m < b.m ∨ (a.m = b.m ∧ a.d ≤ b.d)))

instance : DecidableRel PDate.le := fun a b =>
  inferInstanceAs (Decidable (a.y < b.y ∨ (a.y = b.y ∧ (a.m < b.m ∨ (a.m = b.m ∧ a.d ≤ b.d)))))

/-- Strict lexicographic order on character lists, comparing code points —
how both Python and the columnar engine compare strings. -/
def charListLt : List Char → List Char → Bool
  | _, [] => false
  | [], _ :: _ => true
  | a :: as, b :: bs => if a = b then charListLt as bs else decide (a.toNat < b.toNat)

/-- Strict lexicographic order on strings. -/
def strLt (a b : String) : Prop :=
  charListLt a.data b.data = true

instance : DecidableRel strLt := fun a b =>
  inferInstanceAs (Decidable (charListLt a.data b.data = true))

/-- The sort key order of `.sort(by=['unique_id', 'ds'])` (source lines 66 and
118): primarily the entity key in lexicographic string order, secondarily the
date chronologically. -/
def rowle (a b : LongRow) : Prop :=
  strLt a.unique_id b.unique_id ∨ (a.unique_id = b.unique_id ∧ PDate.le a.ds b.ds)

instance : DecidableRel rowle := fun a b =>
  inferInstanceAs (Decidable (strLt a.unique_id b.unique_id ∨
    (a.unique_id = b.unique_id ∧ PDate.le a.ds b.ds)))

instance : IsTotal PDate PDate.le :=
  ⟨by intro a b; unfold PDate.le; omega⟩

instance : IsTrans PDate PDate.le :=
  ⟨by intro a b c hab hbc; unfold PDate.le at *; omega⟩

theorem char_toNat_inj {a b : Char} (h : a.toNat = b.toNat) : a = b := by
  have ha := Char.ofNat_toNat a
  have hb := Char.ofNat_toNat b
  rw [← ha, ← hb, h]

theorem charListLt_total : ∀ {a b : List Char},
    charListLt a b = false → charListLt b a = false → a = b := by
  intro a
  induction a with
  | nil =>
    intro b _ hba
    cases b with
    | nil => rfl
    | cons c cs => simp [charListLt] at *
  | cons x xs ih =>
    intro b hab hba
    cases b with
    | nil => simp [charListLt] at hba
    | cons y ys =>
      by_cases hxy : x = y
      · subst hxy
        simp only [charListLt, if_pos rfl] at hab hba
        rw [ih hab hba]
      · simp only [charListLt, if_neg hxy, if_neg (Ne.symm hxy),
          decide_eq_false_iff_not] at hab hba
        exact absurd (char_toNat_inj (by omega)) hxy

theorem charListLt_trans : ∀ {a b c : List Char},
    charListLt a b = true → charListLt b c = true → charListLt a c = true := by
  intro a
  induction a with
  | nil =>
    intro b c hab hbc
    cases c with
    | nil =>
      cases b with
      | nil => exact hab
      | cons y ys => simp [charListLt] at hbc
    | cons z zs => simp [charListLt]
  | cons x xs ih =>
    intro b c hab hbc
    cases b with
    | nil => simp [charListLt] at hab
    | cons y ys =>
      cases c with
      | nil => simp [charListLt] at hbc
      | cons z zs =>
        by_cases hxy : x = y <;> by_cases hyz : y = z
        · subst hxy; subst hyz
          simp only [charListLt, if_pos rfl] at *
          exact ih hab hbc
        · subst hxy
          simpa only [charListLt, if_neg hyz] using hbc
        · subst hyz
          simpa only [charListLt, if_neg hxy] using hab
        · simp only [charListLt, if_neg hxy, if_neg hyz, decide_eq_true_eq] at hab hbc
          have hxz : x.toNat < z.toNat := lt_trans hab hbc
          have hne : x ≠ z := by intro h; subst h; omega
          simp only [charListLt, if_neg hne, decide_eq_true_eq]
          exact hxz

theorem strLt_total {a b : String} (hab : ¬ strLt a b) (hba : ¬ strLt b a) : a = b := by
  have h1 : charListLt a.data b.data = false := by
    unfold strLt at hab; exact eq_false_of_ne_true hab
  have h2 : charListLt b.data a.data = false := by
    unfold strLt at hba; exact eq_false_of_ne_true hba
  have h := charListLt_total h1 h2
  cases a; cases b
  exact congrArg String.mk h

theorem strLt_trans {a b c : String} (hab : strLt a b) (hbc : strLt b c) : strLt a c :=
  charListLt_trans hab hbc

instance : IsTotal LongRow rowle := by
  constructor
  intro a b
  by_cases hab : strLt a.unique_id b.unique_id
  · exact Or.inl (Or.inl hab)
  · by_cases hba : strLt b.unique_id a.unique_id
    · exact Or.inr (Or.inl hba)
    · have h := strLt_total hab hba
      rcases total_of PDate.le a.ds b.ds with hd | hd
      · exact Or.inl (Or.inr ⟨h, hd⟩)
      · exact Or.inr (Or.inr ⟨h.symm, hd⟩)

instance : IsTrans LongRow rowle := by
  constructor
  intro a b c hab hbc
  rcases hab with hab | ⟨hab, hab'⟩ <;> rcases hbc with hbc | ⟨hbc, hbc'⟩
  · exact Or.inl (strLt_trans hab hbc)
  · exact Or.inl (hbc ▸ hab)
  · exact Or.inl (hab ▸ hbc)
  · exact Or.inr ⟨hab.trans hbc, Trans.trans hab' hbc'⟩

/-- Sorting of the long table, `.sort(by=['unique_id', 'ds'])`. -/
def sortRows (l : List LongRow) : List LongRow :=
  List.insertionSort rowle l

/-- Model of the Python list comprehension
`[dt.datetime.strptime(date, '%Y-%m-%d').date() for date in dates]`
(source line 95): `none` when any element raises. -/
def parseDates : List String → Option (List PDate)
  | [] => some []
  | c :: cs =>
    match parseDate c, parseDates cs with
    | some d, some ds => some (d :: ds)
    | _, _ => none

/-- The long record produced for observation cell `j` (date `d`) of wide row
`r` by the unpivot of `prepare_raw_csv`. -/
def mkLongRow (j : Nat) (d : PDate) (r : WideRow) : LongRow :=
  { ds := d, y := r.values.getD j none, unique_id := entityKey r,
    Client := r.Client, Warehouse := r.Warehouse, Product := r.Product }

/-- The unpivoted (pre-sort) long rows: for each date column (position `j`,
parsed date `d`), one record per wide row — polars `unpivot` stacks the value
columns, so the result is column-major. -/
def longRowsAux (rows : List WideRow) : List PDate → Nat → List LongRow
  | [], _ => []
  | d :: ds, j => rows.map (mkLongRow j d) ++ longRowsAux rows ds (j + 1)

/-- Model of `prepare_raw_csv` (source lines 43-67): derive `unique_id`,
unpivot to long form, cast the `ds` strings to dates (a failing cast raises,
modelled by `none`), and sort by `(unique_id, ds)`. -/
def prepareRawCsv (t : WideTable) : Option (List LongRow) :=
  match parseDates t.dateCols with
  | none => none
  | some ps => some (sortRows (longRowsAux t.rows ps 0))

/-- Model of `dates_that_are_not_overlapping` (source lines 98-101): the parsed
snapshot dates that are not among the distinct `ds` values of the old table
(`old_df['ds'].unique().to_list()`). -/
def newDates (old : List LongRow) (parsed : List PDate) : List PDate :=
  parsed.filter (fun d => decide (d ∉ (old.map LongRow.ds).dedup))

/-- Outcome of one call of `merge_new_data_with_preprocessed_data`:
`schemaError` = a date column name failed to parse and the exception
propagated before any write; `allOverlapping` = the short-circuit of source
line 103 (no write); `merged r` = the concatenated, re-sorted table `r` was
written to the parquet file. -/
inductive MergeOutcome where
  | schemaError
  | allOverlapping
  | merged (result : List LongRow)
deriving DecidableEq, Repr

/-- Model of `merge_new_data_with_preprocessed_data` (source lines 69-122)
applied to the persisted table `old` and the raw snapshot `t`. -/
def mergeNewData (old : List LongRow) (t : WideTable) : MergeOutcome :=
  match parseDates t.dateCols with
  | none => MergeOutcome.schemaError
  | some parsed =>
    if newDates old parsed = [] then MergeOutcome.allOverlapping
    else
      match prepareRawCsv t with
      | none => MergeOutcome.schemaError
      | some prepared =>
        MergeOutcome.merged (sortRows (old ++
          prepared.filter (fun x => decide (x.ds ∈ newDates old parsed))))

/-- The persisted table after a merge: unchanged unless a write occurred. -/
def persistedAfter (old : List LongRow) (o : MergeOutcome) : List LongRow :=
  match o with
  | MergeOutcome.merged r => r
  | _ => old

/-- Model of `process_files` (source lines 26-41): merge each candidate
snapshot in order.  The loop has no exception handling, so a `schemaError`
propagates out of the loop: the remaining files are never attempted.  Returns
the persisted table at the end (or at the abort) and whether an uncaught
error aborted the batch. -/
def processFiles (old : List LongRow) : List WideTable → List LongRow × Bool
  | [] => (old, false)
  | t :: ts =>
    match mergeNewData old t with
    | MergeOutcome.schemaError => (old, true)
    | MergeOutcome.allOverlapping => processFiles old ts
    | MergeOutcome.merged r => processFiles r ts

/-- The `(unique_id, ds)` key pair of a long record. -/
def pairKey (r : LongRow) : String × PDate :=
  (r.unique_id, r.ds)

/-- No two records of `l` share the same `(unique_id, ds)` pair. -/
def pairsNodup (l : List LongRow) : Prop :=
  (l.map pairKey).Nodup

instance (l : List LongRow) : Decidable (pairsNodup l) :=
  inferInstanceAs (Decidable (List.Nodup _))

/-- The snapshot has at most one row per `(Client, Warehouse, Product)`
triple. -/
def tripleNodup (t : WideTable) : Prop :=
  (t.rows.map (fun r => (r.Client, r.Warehouse, r.Product))).Nodup

instance (t : WideTable) : Decidable (tripleNodup t) :=
  inferInstanceAs (Decidable (List.Nodup _))

/-- The snapshot has at most one row per derived entity key. -/
def keyNodup (t : WideTable) : Prop :=
  (t.rows.map entityKey).Nodup

instance (t : WideTable) : Decidable (keyNodup t) :=
  inferInstanceAs (Decidable (List.Nodup _))

/-- Well-formedness of a snapshot for the uniqueness invariant: at most one
row per derived entity key, and the date columns parse (when they parse at
all) to pairwise-distinct dates. -/
def snapOK (t : WideTable) : Bool :=
  decide (keyNodup t) &&
    (match parseDates t.dateCols with
     | none => true
     | some ds => decide ds.Nodup)

/-! ### Basic lemmas about the embedded operations -/

theorem parseDates_length : ∀ {cs : List String} {ps : List PDate},
    parseDates cs = some ps → ps.length = cs.length := by
  intro cs
  induction cs with
  | nil => intro ps h; simp [parseDates] at h; simp [← h]
  | cons c cs ih =>
    intro ps h
    simp only [parseDates] at h
    cases hc : parseDate c with
    | none => rw [hc] at h; simp at h
    | some d =>
      rw [hc] at h
      cases hcs : parseDates cs with
      | none => rw [hcs] at h; simp at h
      | some ds =>
        rw [hcs] at h
        simp only [Option.some.injEq] at h
        subst h
        simp [ih hcs]

theorem parseDates_none_of_mem {cs : List String} {c : String}
    (hmem : c ∈ cs) (hc : parseDate c = none) : parseDates cs = none := by
  induction cs with
  | nil => cases hmem
  | cons c' cs ih =>
    rcases List.mem_cons.mp hmem with h | h
    · subst h
      simp [parseDates, hc]
    · simp only [parseDates, ih h]
      cases parseDate c' <;> rfl

theorem parseDates_mem : ∀ {cs : List String} {ps : List PDate},
    parseDates cs = some ps → ∀ d ∈ ps, ∃ c ∈ cs, parseDate c = some d := by
  intro cs
  induction cs with
  | nil => intro ps h d hd; simp [parseDates] at h; subst h; cases hd
  | cons c cs ih =>
    intro ps h d hd
    simp only [parseDates] at h
    cases hc : parseDate c with
    | none => rw [hc] at h; simp at h
    | some d' =>
      rw [hc] at h
      cases hcs : parseDates cs with
      | none => rw [hcs] at h; simp at h
      | some ds =>
        rw [hcs] at h
        simp only [Option.some.injEq] at h
        subst h
        rcases List.mem_cons.mp hd with h | h
        · exact ⟨c, List.mem_cons_self c cs, h ▸ hc⟩
        · rcases ih hcs d h with ⟨c', hc', hp⟩
          exact ⟨c', List.mem_cons_of_mem c hc', hp⟩

theorem longRowsAux_length (rows : List WideRow) :
    ∀ (ps : List PDate) (j : Nat),
      (longRowsAux rows ps j).length = ps.length * rows.length := by
  intro ps
  induction ps with
  | nil => intro j; simp [longRowsAux]
  | cons d ds ih =>
    intro j
    simp only [longRowsAux, List.length_append, List.length_map, ih, List.length_cons]
    rw [Nat.succ_mul]
    omega

theorem longRowsAux_mem {rows : List WideRow} :
    ∀ {ps : List PDate} {j : Nat} {x : LongRow}, x ∈ longRowsAux rows ps j →
      ∃ d ∈ ps, ∃ r ∈ rows, ∃ i, x = mkLongRow i d r := by
  intro ps
  induction ps with
  | nil => intro j x hx; cases hx
  | cons d ds ih =>
    intro j x hx
    rcases List.mem_append.mp hx with hx | hx
    · rcases List.mem_map.mp hx with ⟨r, hr, hx⟩
      exact ⟨d, List.mem_cons_self d ds, r, hr, j, hx.symm⟩
    · rcases ih hx with ⟨d', hd', r, hr, i, hi⟩
      exact ⟨d', List.mem_cons_of_mem d hd', r, hr, i, hi⟩

theorem longRowsAux_cover {rows : List WideRow} {d : PDate} {r : WideRow} :
    ∀ {ps : List PDate} (j : Nat), d ∈ ps → r ∈ rows →
      ∃ x ∈ longRowsAux rows ps j, x.ds = d ∧ x.unique_id = entityKey r := by
  intro ps
  induction ps with
  | nil => intro j hd _; cases hd
  | cons d' ds ih =>
    intro j hd hr
    rcases List.mem_cons.mp hd with h | h
    · subst h
      exact ⟨mkLongRow j d r,
        List.mem_append.mpr (Or.inl (List.mem_map.mpr ⟨r, hr, rfl⟩)), rfl, rfl⟩
    · rcases ih (j + 1) h hr with ⟨x, hx, hxd, hxk⟩
      exact ⟨x, List.mem_append.mpr (Or.inr hx), hxd, hxk⟩

theorem mkLongRow_ds (i : Nat) (d : PDate) (r : WideRow) : (mkLongRow i d r).ds = d := rfl

theorem mkLongRow_uid (i : Nat) (d : PDate) (r : WideRow) :
    (mkLongRow i d r).unique_id = entityKey r := rfl

theorem sortRows_perm (l : List LongRow) : List.Perm (sortRows l) l :=
  List.perm_insertionSort rowle l

theorem sortRows_sorted (l : List LongRow) : List.Sorted rowle (sortRows l) :=
  List.sorted_insertionSort rowle l

theorem mem_newDates {old : List LongRow} {ps : List PDate} {d : PDate} :
    d ∈ newDates old ps ↔ d ∈ ps ∧ d ∉ old.map LongRow.ds := by
  unfold newDates
  rw [List.mem_filter]
  simp [List.mem_dedup]

theorem newDates_eq_nil_iff {old : List LongRow} {ps : List PDate} :
    newDates old ps = [] ↔ ∀ d ∈ ps, d ∈ old.map LongRow.ds := by
  unfold newDates
  rw [List.filter_eq_nil_iff]
  constructor
  · intro h d hd
    have h2 := h d hd
    simp only [decide_eq_true_eq, not_not, List.mem_dedup] at h2
    exact h2
  · intro h d hd
    simp only [decide_eq_true_eq, not_not, List.mem_dedup]
    exact h d hd

/-! ### Characterizing the merge outcomes -/

theorem mergeNewData_schemaError_eq {old : List LongRow} {t : WideTable}
    (hp : parseDates t.dateCols = none) :
    mergeNewData old t = MergeOutcome.schemaError := by
  unfold mergeNewData
  simp only [hp]

theorem mergeNewData_allOverlapping_eq {old : List LongRow} {t : WideTable} {ps : List PDate}
    (hp : parseDates t.dateCols = some ps) (hnd : newDates old ps = []) :
    mergeNewData old t = MergeOutcome.allOverlapping := by
  unfold mergeNewData
  simp only [hp, if_pos hnd]

theorem mergeNewData_merged_eq {old : List LongRow} {t : WideTable} {ps : List PDate}
    (hp : parseDates t.dateCols = some ps) (hnd : newDates old ps ≠ []) :
    mergeNewData old t = MergeOutcome.merged (sortRows (old ++
      (sortRows (longRowsAux t.rows ps 0)).filter
        (fun x => decide (x.ds ∈ newDates old ps)))) := by
  unfold mergeNewData prepareRawCsv
  simp only [hp, if_neg hnd]

theorem merged_spec {old : List LongRow} {t : WideTable} {r : List LongRow}
    (h : mergeNewData old t = MergeOutcome.merged r) :
    ∃ ps, parseDates t.dateCols = some ps ∧ newDates old ps ≠ [] ∧
      r = sortRows (old ++ (sortRows (longRowsAux t.rows ps 0)).filter
        (fun x => decide (x.ds ∈ newDates old ps))) := by
  cases hp : parseDates t.dateCols with
  | none => rw [mergeNewData_schemaError_eq hp] at h; exact MergeOutcome.noConfusion h
  | some ps =>
    by_cases hnd : newDates old ps = []
    · rw [mergeNewData_allOverlapping_eq hp hnd] at h
      exact MergeOutcome.noConfusion h
    · rw [mergeNewData_merged_eq hp hnd] at h
      injection h with h
      exact ⟨ps, rfl, hnd, h.symm⟩

theorem newDates_nil_of_allOverlapping {old : List LongRow} {t : WideTable} {ps : List PDate}
    (hp : parseDates t.dateCols = some ps)
    (h : mergeNewData old t = MergeOutcome.allOverlapping) : newDates old ps = [] := by
  by_contra hnd
  rw [mergeNewData_merged_eq hp hnd] at h
  exact MergeOutcome.noConfusion h

/-- The multiset of records after a merge that wrote: the old records plus the
reshaped new records whose date is genuinely new. -/
theorem merged_perm {old : List LongRow} {t : WideTable} {r : List LongRow} {ps : List PDate}
    (hp : parseDates t.dateCols = some ps) (hm : mergeNewData old t = MergeOutcome.merged r) :
    List.Perm r (old ++ (sortRows (longRowsAux t.rows ps 0)).filter
      (fun x => decide (x.ds ∈ newDates old ps))) := by
  rcases merged_spec hm with ⟨ps', hp', hnd', hr⟩
  rw [hp] at hp'
  injection hp' with hp'
  subst hp'
  rw [hr]
  exact sortRows_perm _

/-- Every record of a written merge result is either an old record or a new
record whose date was absent from the old table. -/
theorem merged_mem_cases {old : List LongRow} {t : WideTable} {r : List LongRow}
    (hm : mergeNewData old t = MergeOutcome.merged r) :
    ∀ x ∈ r, x ∈ old ∨ x.ds ∉ old.map LongRow.ds := by
  rcases merged_spec hm with ⟨ps, hp, hnd, hr⟩
  intro x hx
  rw [hr] at hx
  rcases List.mem_append.mp ((sortRows_perm _).mem_iff.mp hx) with h | h
  · exact Or.inl h
  · rcases List.mem_filter.mp h with ⟨_, hd⟩
    rw [decide_eq_true_eq] at hd
    exact Or.inr (mem_newDates.mp hd).2

/-- The old records survive any written merge (as a sub-multiset: membership
version). -/
theorem merged_old_mem {old : List LongRow} {t : WideTable} {r : List LongRow}
    (hm : mergeNewData old t = MergeOutcome.merged r) :
    ∀ x ∈ old, x ∈ r := by
  rcases merged_spec hm with ⟨ps, hp, hnd, hr⟩
  intro x hx
  rw [hr]
  exact (sortRows_perm _).mem_iff.mpr (List.mem_append.mpr (Or.inl hx))

/-! ### Uniqueness of `(unique_id, ds)` pairs -/

theorem pairKey_mkLongRow (i : Nat) (d : PDate) (r : WideRow) :
    pairKey (mkLongRow i d r) = (entityKey r, d) := rfl

theorem longRowsAux_ds_mem {rows : List WideRow} {ps : List PDate} {j : Nat} {x : LongRow}
    (hx : x ∈ longRowsAux rows ps j) : x.ds ∈ ps := by
  rcases longRowsAux_mem hx with ⟨d, hd, r, _, i, hi⟩
  rw [hi, mkLongRow_ds]
  exact hd

theorem pairsNodup_longRowsAux {rows : List WideRow}
    (hkey : (rows.map entityKey).Nodup) :
    ∀ {ps : List PDate} (j : Nat), ps.Nodup → pairsNodup (longRowsAux rows ps j) := by
  intro ps
  induction ps with
  | nil => intro j _; simp [pairsNodup, longRowsAux]
  | cons d ds ih =>
    intro j hnd
    rcases List.nodup_cons.mp hnd with ⟨hdds, hds⟩
    unfold pairsNodup longRowsAux
    rw [List.map_append]
    refine List.nodup_append.mpr ⟨?_, ih (j + 1) hds, ?_⟩
    · rw [List.map_map]
      have heq : (pairKey ∘ mkLongRow j d) = (fun k => (k, d)) ∘ entityKey := rfl
      rw [heq, ← List.map_map]
      exact List.Nodup.map (fun a b h => (Prod.ext_iff.mp h).1) hkey
    · intro p hp hp'
      rcases List.mem_map.mp hp with ⟨x, hx, hpx⟩
      rcases List.mem_map.mp hx with ⟨r, _, hxr⟩
      rcases List.mem_map.mp hp' with ⟨x', hx', hpx'⟩
      have h2 : x'.ds ∈ ds := longRowsAux_ds_mem hx'
      have h1 : p.2 = d := by rw [← hpx, ← hxr, pairKey_mkLongRow]
      have h3 : p.2 = x'.ds := by rw [← hpx']; rfl
      exact hdds (by rw [← h1, h3]; exact h2)

theorem pairsNodup_of_perm {l l' : List LongRow} (h : List.Perm l l')
    (hn : pairsNodup l') : pairsNodup l :=
  (List.Perm.nodup_iff (List.Perm.map pairKey h)).mpr hn

theorem pairsNodup_filter {l : List LongRow} (p : LongRow → Bool)
    (hn : pairsNodup l) : pairsNodup (l.filter p) :=
  List.Nodup.sublist (List.Sublist.map pairKey (List.filter_sublist l)) hn

/-- A single merge preserves the uniqueness invariant, provided the snapshot
has at most one row per derived entity key and pairwise-distinct parsed
dates. -/
theorem pairsNodup_merge {old : List LongRow} {t : WideTable}
    (hold : pairsNodup old) (hsnap : snapOK t = true) :
    pairsNodup (persistedAfter old (mergeNewData old t)) := by
  cases hm : mergeNewData old t with
  | schemaError => exact hold
  | allOverlapping => exact hold
  | merged r =>
    rcases merged_spec hm with ⟨ps, hp, hnd, hr⟩
    unfold snapOK at hsnap
    rw [hp] at hsnap
    rw [Bool.and_eq_true] at hsnap
    rcases hsnap with ⟨hkey, hdates⟩
    rw [decide_eq_true_eq] at hkey hdates
    show pairsNodup r
    have hperm : List.Perm r (old ++ (sortRows (longRowsAux t.rows ps 0)).filter
        (fun x => decide (x.ds ∈ newDates old ps))) := by
      rw [hr]; exact sortRows_perm _
    apply pairsNodup_of_perm hperm
    unfold pairsNodup
    rw [List.map_append]
    refine List.nodup_append.mpr ⟨hold, ?_, ?_⟩
    · apply pairsNodup_filter
      exact pairsNodup_of_perm (sortRows_perm _) (pairsNodup_longRowsAux hkey 0 hdates)
    · intro p hpold hpnew
      rcases List.mem_map.mp hpold with ⟨yr, hy, hpy⟩
      rcases List.mem_map.mp hpnew with ⟨x, hx, hpx⟩
      rcases List.mem_filter.mp hx with ⟨_, hxd⟩
      rw [decide_eq_true_eq] at hxd
      apply (mem_newDates.mp hxd).2
      have hds : yr.ds = x.ds := congrArg Prod.snd (hpy.trans hpx.symm)
      rw [← hds]
      exact List.mem_map.mpr ⟨yr, hy, rfl⟩

/-- The whole batch driver preserves the uniqueness invariant. -/
theorem pairsNodup_processFiles {snaps : List WideTable} :
    ∀ {old : List LongRow}, pairsNodup old → (∀ t ∈ snaps, snapOK t = true) →
      pairsNodup (processFiles old snaps).1 := by
  induction snaps with
  | nil => intro old hold _; simpa only [processFiles] using hold
  | cons t ts ih =>
    intro old hold hs
    have h1 := pairsNodup_merge hold (hs t (List.mem_cons_self t ts))
    have hs' : ∀ u ∈ ts, snapOK u = true := fun u hu => hs u (List.mem_cons_of_mem t hu)
    unfold processFiles
    cases hm : mergeNewData old t with
    | schemaError => exact hold
    | allOverlapping => exact ih hold hs'
    | merged r =>
      rw [hm] at h1
      exact ih h1 hs'

/-- In a written merge of a snapshot with at least one row, every genuinely
new date really appears in the result. -/
theorem merged_newDate_mem {old : List LongRow} {t : WideTable} {r : List LongRow}
    {ps : List PDate} (hp : parseDates t.dateCols = some ps)
    (hm : mergeNewData old t = MergeOutcome.merged r) (hrows : t.rows ≠ [])
    {d : PDate} (hd : d ∈ newDates old ps) : d ∈ r.map LongRow.ds := by
  rcases merged_spec hm with ⟨ps', hp', hnd', hr⟩
  rw [hp] at hp'
  injection hp' with hp'
  subst hp'
  rcases List.exists_mem_of_ne_nil t.rows hrows with ⟨r0, hr0⟩
  rcases longRowsAux_cover 0 (mem_newDates.mp hd).1 hr0 with ⟨x, hx, hxd, _⟩
  have hx1 : x ∈ sortRows (longRowsAux t.rows ps 0) := (sortRows_perm _).mem_iff.mpr hx
  have hx2 : x ∈ (sortRows (longRowsAux t.rows ps 0)).filter
      (fun z => decide (z.ds ∈ newDates old ps)) :=
    List.mem_filter.mpr ⟨hx1, by rw [decide_eq_true_eq, hxd]; exact hd⟩
  have hx3 : x ∈ r := by
    rw [hr]
    exact (sortRows_perm _).mem_iff.mpr (List.mem_append.mpr (Or.inr hx2))
  exact List.mem_map.mpr ⟨x, hx3, hxd⟩

/-! ### Concrete data used by the witnesses and counterexamples -/

/-- The persisted record of the spec's first-write-wins scenario: entity
`C1/W1/P1`, date 2024-01-01, value 10. -/
def exOldRec : LongRow :=
  { ds := ⟨2024, 1, 1⟩, y := some 10, unique_id := "C1/W1/P1",
    Client := "C1", Warehouse := "W1", Product := "P1" }

def exOld : List LongRow := [exOldRec]

/-- A snapshot re-reporting 2024-01-01 for the same entity with value 99. -/
def exRowOverlap : WideRow :=
  { Client := "C1", Warehouse := "W1", Product := "P1", values := [some 99] }

def exSnapOverlap : WideTable := { dateCols := ["2024-01-01"], rows := [exRowOverlap] }

/-- The spec's concrete scenario: one entity, dates 2024-01-01 → 5 and
2024-01-02 → 7. -/
def exRow2 : WideRow :=
  { Client := "C1", Warehouse := "W1", Product := "P1", values := [some 5, some 7] }

def exSnap2 : WideTable := { dateCols := ["2024-01-01", "2024-01-02"], rows := [exRow2] }

/-- A snapshot for a different entity `C2/W1/P1` carrying one date already
stored (for `C1/W1/P1` only) and one new date. -/
def exSecondRow : WideRow :=
  { Client := "C2", Warehouse := "W1", Product := "P1", values := [some 3, some 4] }

def exSecondSnap : WideTable :=
  { dateCols := ["2024-01-01", "2024-01-02"], rows := [exSecondRow] }

/-- Two rows with distinct `(Client, Warehouse, Product)` triples whose
slash-joined entity keys collide (`"a/b"/"c"/"p"` and `"a"/"b/c"/"p"` both
give `"a/b/c/p"`). -/
def cexKeyRow1 : WideRow :=
  { Client := "a/b", Warehouse := "c", Product := "p", values := [some 1] }

def cexKeyRow2 : WideRow :=
  { Client := "a", Warehouse := "b/c", Product := "p", values := [some 2] }

def cexKeySnap : WideTable := { dateCols := ["2024-01-01"], rows := [cexKeyRow1, cexKeyRow2] }

/-- One row, but two distinct column names parsing to the same calendar date
(`strptime` accepts both `2024-01-01` and `2024-1-1`). -/
def cexAliasRow : WideRow :=
  { Client := "C1", Warehouse := "W1", Product := "P1", values := [some 1, some 2] }

def cexAliasSnap : WideTable :=
  { dateCols := ["2024-01-01", "2024-1-1"], rows := [cexAliasRow] }

/-- A header-only snapshot: a fresh date column but zero data rows. -/
def cexEmptySnap : WideTable := { dateCols := ["2024-01-01"], rows := [] }

/-- A snapshot with a non-date, non-identifier column name. -/
def cexBadSnap : WideTable := { dateCols := ["Region"], rows := [exRowOverlap] }

def exFirstResult : List LongRow := persistedAfter [] (mergeNewData [] exSnap2)

def exC9Result : List LongRow := persistedAfter exOld (mergeNewData exOld exSecondSnap)

def exPrepared : List LongRow := (prepareRawCsv exSnap2).getD []

/-! ### The claims -/

/-- C1: first-write-wins — for every persisted table and every merge, the
records carrying a date already present in the persisted table are exactly
the old records with that date (as a multiset): every row of the new
snapshot whose date is already present is filtered out before concatenation,
so an existing record `(E, D, V)` is never touched. -/
theorem C1_first_write_wins {old : List LongRow} {t : WideTable} {d : PDate}
    (hd : d ∈ old.map LongRow.ds) :
    List.Perm ((persistedAfter old (mergeNewData old t)).filter (fun x => decide (x.ds = d)))
      (old.filter (fun x => decide (x.ds = d))) := by
  cases hm : mergeNewData old t with
  | schemaError => exact List.Perm.refl _
  | allOverlapping => exact List.Perm.refl _
  | merged r =>
    rcases merged_spec hm with ⟨ps, hp, hnd, hr⟩
    show List.Perm (r.filter _) _
    have h1 := List.Perm.filter (fun x => decide (x.ds = d))
      ((hr ▸ sortRows_perm _ :
        List.Perm r (old ++ (sortRows (longRowsAux t.rows ps 0)).filter
          (fun x => decide (x.ds ∈ newDates old ps)))))
    rw [List.filter_append] at h1
    have h2 : ((sortRows (longRowsAux t.rows ps 0)).filter
        (fun x => decide (x.ds ∈ newDates old ps))).filter
          (fun x => decide (x.ds = d)) = [] := by
      rw [List.filter_eq_nil_iff]
      intro x hx
      rcases List.mem_filter.mp hx with ⟨_, hxnd⟩
      rw [decide_eq_true_eq] at hxnd
      rw [decide_eq_true_eq]
      intro hxd
      exact (mem_newDates.mp hxnd).2 (hxd ▸ hd)
    rw [h2, List.append_nil] at h1
    exact h1

/-- C1 witness: the spec's scenario — entity `C1/W1/P1` persisted with value
10 on 2024-01-01; a snapshot re-reporting that date (value 99) leaves the
records for 2024-01-01 exactly the old ones. -/
theorem C1_first_write_wins_witness :
    (⟨2024, 1, 1⟩ : PDate) ∈ exOld.map LongRow.ds ∧
    List.Perm ((persistedAfter exOld (mergeNewData exOld exSnapOverlap)).filter
        (fun x => decide (x.ds = ⟨2024, 1, 1⟩)))
      (exOld.filter (fun x => decide (x.ds = ⟨2024, 1, 1⟩))) :=
  ⟨by decide, C1_first_write_wins (by decide)⟩

/-- C3: after every merge that performs a write, the written table is sorted
by `(unique_id, ds)` — entity key lexicographically, date chronologically —
re-established by the explicit sort of the concatenated table. -/
theorem C3_ordering {old : List LongRow} {t : WideTable} {r : List LongRow}
    (h : mergeNewData old t = MergeOutcome.merged r) : List.Sorted rowle r := by
  rcases merged_spec h with ⟨ps, hp, hnd, hr⟩
  rw [hr]
  exact sortRows_sorted _

/-- C3 witness: a concrete merge that writes, whose result is sorted. -/
theorem C3_ordering_witness :
    mergeNewData [] exSnap2 = MergeOutcome.merged exFirstResult ∧
    List.Sorted rowle exFirstResult :=
  ⟨by decide, @C3_ordering [] exSnap2 exFirstResult (by decide)⟩

/-- C4: the merge is the all-overlapping no-op exactly when every parsed
snapshot date is already among the dates stored in the old table (a pure
set-membership condition: order-independent, duplicates do not multiply),
and in that case no write occurs — the persisted table is untouched. -/
theorem C4_short_circuit {old : List LongRow} {t : WideTable} {ps : List PDate}
    (hp : parseDates t.dateCols = some ps) :
    (mergeNewData old t = MergeOutcome.allOverlapping ↔
      ∀ d ∈ ps, d ∈ old.map LongRow.ds) ∧
    (mergeNewData old t = MergeOutcome.allOverlapping →
      persistedAfter old (mergeNewData old t) = old) := by
  constructor
  · constructor
    · intro h
      exact newDates_eq_nil_iff.mp (newDates_nil_of_allOverlapping hp h)
    · intro h
      exact mergeNewData_allOverlapping_eq hp (newDates_eq_nil_iff.mpr h)
  · intro h
    rw [h]
    rfl

/-- C4 witness: the overlap scenario — a snapshot carrying only the already
stored date 2024-01-01 short-circuits and the dataset is untouched. -/
theorem C4_short_circuit_witness :
    parseDates exSnapOverlap.dateCols = some [⟨2024, 1, 1⟩] ∧
    ((mergeNewData exOld exSnapOverlap = MergeOutcome.allOverlapping ↔
        ∀ d ∈ [(⟨2024, 1, 1⟩ : PDate)], d ∈ exOld.map LongRow.ds) ∧
      (mergeNewData exOld exSnapOverlap = MergeOutcome.allOverlapping →
        persistedAfter exOld (mergeNewData exOld exSnapOverlap) = exOld)) :=
  ⟨by decide, C4_short_circuit (by decide)⟩

/-- C6: SchemaError atomicity — if any non-identifier column name of the
snapshot fails to parse as a `YYYY-MM-DD` date, the merge for that file
aborts with the parse error before any write, and the persisted table is
exactly what it was. -/
theorem C6_schema_error {old : List LongRow} {t : WideTable} {c : String}
    (hc : c ∈ t.dateCols) (hparse : parseDate c = none) :
    mergeNewData old t = MergeOutcome.schemaError ∧
    persistedAfter old (mergeNewData old t) = old := by
  have h : mergeNewData old t = MergeOutcome.schemaError :=
    mergeNewData_schemaError_eq (parseDates_none_of_mem hc hparse)
  exact ⟨h, by rw [h]; rfl⟩

/-- C6 witness: the spec's fatal scenario — a column named `"Region"` aborts
the merge and leaves the dataset unmodified. -/
theorem C6_schema_error_witness :
    "Region" ∈ cexBadSnap.dateCols ∧ parseDate "Region" = none ∧
    (mergeNewData exOld cexBadSnap = MergeOutcome.schemaError ∧
      persistedAfter exOld (mergeNewData exOld cexBadSnap) = exOld) :=
  ⟨by decide, by decide, @C6_schema_error exOld cexBadSnap "Region" (by decide) (by decide)⟩

/-- C2 counterexample: the claim as stated is false.  (a) Two rows with
distinct `(Client, Warehouse, Product)` triples can produce the same
slash-joined entity key (`"a/b"/"c"/"p"` and `"a"/"b/c"/"p"` both give
`"a/b/c/p"`), so one merge of a triple-unique snapshot into an empty (hence
duplicate-free) table yields two records with the same `(entity_key, date)`
pair.  (b) Likewise two distinct column names can parse to the same date
(`"2024-01-01"` and `"2024-1-1"`), duplicating the pair for a single row. -/
theorem C2_uniqueness_counterexample :
    tripleNodup cexKeySnap ∧ pairsNodup ([] : List LongRow) ∧
    mergeNewData [] cexKeySnap ≠ MergeOutcome.schemaError ∧
    mergeNewData [] cexKeySnap ≠ MergeOutcome.allOverlapping ∧
    ¬ pairsNodup (persistedAfter [] (mergeNewData [] cexKeySnap)) ∧
    tripleNodup cexAliasSnap ∧
    mergeNewData [] cexAliasSnap ≠ MergeOutcome.schemaError ∧
    mergeNewData [] cexAliasSnap ≠ MergeOutcome.allOverlapping ∧
    ¬ pairsNodup (persistedAfter [] (mergeNewData [] cexAliasSnap)) := by
  decide

/-- C2 (amended): starting from a persisted table with no duplicate
`(unique_id, ds)` pair, any batch of merges of snapshots that have at most
one row per derived entity key and whose date columns parse to
pairwise-distinct dates leaves the persisted table free of duplicate
`(unique_id, ds)` pairs after every merge. -/
theorem C2_uniqueness {old : List LongRow} {snaps : List WideTable}
    (hold : pairsNodup old) (hs : ∀ t ∈ snaps, snapOK t = true) :
    pairsNodup (processFiles old snaps).1 :=
  pairsNodup_processFiles hold hs

/-- C2 witness: a concrete batch through the driver keeps uniqueness. -/
theorem C2_uniqueness_witness :
    pairsNodup ([] : List LongRow) ∧ (∀ t ∈ [exSnap2, exSnapOverlap], snapOK t = true) ∧
    pairsNodup (processFiles [] [exSnap2, exSnapOverlap]).1 :=
  ⟨by decide, by decide, C2_uniqueness (by decide) (by decide)⟩

/-- C5 counterexample: for a header-only snapshot (a fresh date column, zero
data rows) the first merge performs a write, yet the second merge of the
very same snapshot writes again instead of being detected by the overlap
short-circuit — the claim quantifies over every snapshot, so it fails. -/
theorem C5_idempotence_counterexample :
    mergeNewData [] cexEmptySnap = MergeOutcome.merged [] ∧
    mergeNewData (persistedAfter [] (mergeNewData [] cexEmptySnap)) cexEmptySnap ≠
      MergeOutcome.allOverlapping := by
  decide

/-- C5 (amended): for every snapshot with at least one data row, after a
first merge that writes `r`, a second merge of the same snapshot against `r`
is a no-op detected by the overlap short-circuit, and the persisted table
stays `r`. -/
theorem C5_idempotence {old : List LongRow} {t : WideTable} {r : List LongRow}
    (hm : mergeNewData old t = MergeOutcome.merged r) (hrows : t.rows ≠ []) :
    mergeNewData r t = MergeOutcome.allOverlapping ∧
    persistedAfter r (mergeNewData r t) = r := by
  rcases merged_spec hm with ⟨ps, hp, hnd, hr⟩
  have hall : newDates r ps = [] := by
    rw [newDates_eq_nil_iff]
    intro d hd
    by_cases hdo : d ∈ old.map LongRow.ds
    · rcases List.mem_map.mp hdo with ⟨yy, hy, hyd⟩
      exact List.mem_map.mpr ⟨yy, merged_old_mem hm yy hy, hyd⟩
    · exact merged_newDate_mem hp hm hrows (mem_newDates.mpr ⟨hd, hdo⟩)
  have h := mergeNewData_allOverlapping_eq hp hall
  exact ⟨h, by rw [h]; rfl⟩

/-- C5 witness: merging the spec's concrete snapshot twice — the second
merge short-circuits and the persisted table is unchanged. -/
theorem C5_idempotence_witness :
    mergeNewData [] exSnap2 = MergeOutcome.merged exFirstResult ∧ exSnap2.rows ≠ [] ∧
    (mergeNewData exFirstResult exSnap2 = MergeOutcome.allOverlapping ∧
      persistedAfter exFirstResult (mergeNewData exFirstResult exSnap2) = exFirstResult) :=
  ⟨by decide, by decide, @C5_idempotence [] exSnap2 exFirstResult (by decide) (by decide)⟩

/-- C7 counterexample: the batch loop has no exception handling, so a fatal
parse error in one file aborts the whole run.  With the bad file first, the
batch ends with the dataset untouched and aborted, although merging the
good snapshot alone would have written records — the subsequent file was
never attempted, contradicting the claim. -/
theorem C7_isolation_counterexample :
    processFiles [] [cexBadSnap, exSnap2] = ([], true) ∧
    (processFiles [] [exSnap2]).1 ≠ [] := by
  decide

/-- C7 (amended): a fatal parse error raised while merging one file
propagates out of the batch loop: the batch stops at that file with the
persisted table as it was, and the files after it are not attempted. -/
theorem C7_batch_abort {old : List LongRow} {t : WideTable} {ts : List WideTable}
    (h : mergeNewData old t = MergeOutcome.schemaError) :
    processFiles old (t :: ts) = (old, true) := by
  simp only [processFiles, h]

/-- C7 witness: the concrete aborting batch. -/
theorem C7_batch_abort_witness :
    mergeNewData [] cexBadSnap = MergeOutcome.schemaError ∧
    processFiles [] [cexBadSnap, exSnap2] = ([], true) :=
  ⟨by decide, C7_batch_abort (by decide)⟩

/-- C8: reshaper output guarantee — `prepare_raw_csv` produces exactly
(input rows × date columns) long rows, dropping none; every output `ds` is a
successfully parsed calendar date of some input column (so never null), and
every output `unique_id` is the derived slash-joined key of some input row
(so never null). -/
theorem C8_reshaper {t : WideTable} {l : List LongRow} (h : prepareRawCsv t = some l) :
    l.length = t.rows.length * t.dateCols.length ∧
    (∀ x ∈ l, ∃ c ∈ t.dateCols, parseDate c = some x.ds) ∧
    (∀ x ∈ l, ∃ r ∈ t.rows, x.unique_id = entityKey r) := by
  unfold prepareRawCsv at h
  cases hp : parseDates t.dateCols with
  | none => rw [hp] at h; exact Option.noConfusion h
  | some ps =>
    rw [hp] at h
    injection h with h
    subst h
    refine ⟨?_, ?_, ?_⟩
    · rw [(sortRows_perm _).length_eq, longRowsAux_length, parseDates_length hp,
        Nat.mul_comm]
    · intro x hx
      exact parseDates_mem hp x.ds (longRowsAux_ds_mem ((sortRows_perm _).mem_iff.mp hx))
    · intro x hx
      rcases longRowsAux_mem ((sortRows_perm _).mem_iff.mp hx) with ⟨d, _, r, hr, i, hi⟩
      exact ⟨r, hr, by rw [hi, mkLongRow_uid]⟩

/-- C8 witness: the spec's concrete snapshot (one row, two date columns)
reshapes to exactly two long rows with parsed dates and the derived key. -/
theorem C8_reshaper_witness :
    prepareRawCsv exSnap2 = some exPrepared ∧
    (exPrepared.length = exSnap2.rows.length * exSnap2.dateCols.length ∧
      (∀ x ∈ exPrepared, ∃ c ∈ exSnap2.dateCols, parseDate c = some x.ds) ∧
      (∀ x ∈ exPrepared, ∃ r ∈ exSnap2.rows, x.unique_id = entityKey r)) :=
  ⟨by decide, C8_reshaper (by decide)⟩

/-- C9: global date horizon — overlap is judged against the distinct dates
stored anywhere in the old table, not per entity: every record of a written
result is either an old record, or carries a date that no old record (of any
entity) has.  Equivalently, any snapshot row whose date was already stored
for some entity is excluded even for entities with no record on that date. -/
theorem C9_global_horizon {old : List LongRow} {t : WideTable} {r : List LongRow}
    (hm : mergeNewData old t = MergeOutcome.merged r) :
    ∀ x ∈ r, x ∈ old ∨ ∀ yy ∈ old, yy.ds ≠ x.ds := by
  intro x hx
  rcases merged_mem_cases hm x hx with h | h
  · exact Or.inl h
  · right
    intro yy hy hds
    exact h (List.mem_map.mpr ⟨yy, hy, hds⟩)

/-- C9 witness: entity `C2/W1/P1` has no stored record for 2024-01-01, yet
its row for that date is excluded because `C1/W1/P1` already stores it; the
merged result only adds records with globally fresh dates. -/
theorem C9_global_horizon_witness :
    mergeNewData exOld exSecondSnap = MergeOutcome.merged exC9Result ∧
    (∀ x ∈ exC9Result, x ∈ exOld ∨ ∀ yy ∈ exOld, yy.ds ≠ x.ds) :=
  ⟨by decide, @C9_global_horizon exOld exSecondSnap exC9Result (by decide)⟩

/-- C10 counterexample: for a header-only snapshot (no data rows) the merge
writes, but the written table's distinct dates are not the union of the old
dates and the snapshot's parsed dates — the parsed date 2024-01-01 is in the
union yet absent from the (empty) result. -/
theorem C10_date_growth_counterexample :
    mergeNewData [] cexEmptySnap = MergeOutcome.merged [] ∧
    parseDates cexEmptySnap.dateCols = some [⟨2024, 1, 1⟩] ∧
    ¬ ((⟨2024, 1, 1⟩ : PDate) ∈
        (persistedAfter [] (mergeNewData [] cexEmptySnap)).map LongRow.ds ↔
      ((⟨2024, 1, 1⟩ : PDate) ∈ ([] : List LongRow).map LongRow.ds ∨
        (⟨2024, 1, 1⟩ : PDate) ∈ [(⟨2024, 1, 1⟩ : PDate)])) := by
  decide

/-- C10 (amended): for every merge that writes a snapshot with at least one
data row, the distinct dates of the result are exactly the union of the old
table's dates and the snapshot's parsed dates; and across any merge outcome
the stored date set never shrinks. -/
theorem C10_date_growth {old : List LongRow} {t : WideTable} {ps : List PDate}
    (hp : parseDates t.dateCols = some ps) :
    (∀ r, mergeNewData old t = MergeOutcome.merged r → t.rows ≠ [] →
      ∀ d, d ∈ r.map LongRow.ds ↔ (d ∈ old.map LongRow.ds ∨ d ∈ ps)) ∧
    (∀ d ∈ old.map LongRow.ds,
      d ∈ (persistedAfter old (mergeNewData old t)).map LongRow.ds) := by
  constructor
  · intro r hm hrows d
    constructor
    · intro hd
      rcases List.mem_map.mp hd with ⟨x, hx, hxd⟩
      rcases merged_spec hm with ⟨ps', hp', hnd', hr⟩
      rw [hp] at hp'
      injection hp' with hp'
      subst hp'
      rw [hr] at hx
      rcases List.mem_append.mp ((sortRows_perm _).mem_iff.mp hx) with h | h
      · exact Or.inl (List.mem_map.mpr ⟨x, h, hxd⟩)
      · rcases List.mem_filter.mp h with ⟨h1, _⟩
        exact Or.inr (hxd ▸ longRowsAux_ds_mem ((sortRows_perm _).mem_iff.mp h1))
    · intro hd
      rcases hd with hd | hd
      · rcases List.mem_map.mp hd with ⟨x, hx, hxd⟩
        exact List.mem_map.mpr ⟨x, merged_old_mem hm x hx, hxd⟩
      · by_cases hdo : d ∈ old.map LongRow.ds
        · rcases List.mem_map.mp hdo with ⟨x, hx, hxd⟩
          exact List.mem_map.mpr ⟨x, merged_old_mem hm x hx, hxd⟩
        · exact merged_newDate_mem hp hm hrows (mem_newDates.mpr ⟨hd, hdo⟩)
  · intro d hd
    cases hm : mergeNewData old t with
    | schemaError => exact hd
    | allOverlapping => exact hd
    | merged r =>
      rcases List.mem_map.mp hd with ⟨x, hx, hxd⟩
      exact List.mem_map.mpr ⟨x, merged_old_mem hm x hx, hxd⟩

/-- C10 witness: the concrete snapshot with one row and two fresh dates —
the result's date set is exactly the union. -/
theorem C10_date_growth_witness :
    parseDates exSnap2.dateCols = some [⟨2024, 1, 1⟩, ⟨2024, 1, 2⟩] ∧
    ((∀ r, mergeNewData [] exSnap2 = MergeOutcome.merged r → exSnap2.rows ≠ [] →
        ∀ d, d ∈ r.map LongRow.ds ↔ (d ∈ ([] : List LongRow).map LongRow.ds ∨
          d ∈ [(⟨2024, 1, 1⟩ : PDate), ⟨2024, 1, 2⟩])) ∧
      (∀ d ∈ ([] : List LongRow).map LongRow.ds,
        d ∈ (persistedAfter [] (mergeNewData [] exSnap2)).map LongRow.ds)) :=
  ⟨by decide, @C10_date_growth [] exSnap2 [⟨2024, 1, 1⟩, ⟨2024, 1, 2⟩] (by decide)⟩
